import Mathlib

/-!
Shallow embedding of the coordinate-transform and annotation-geometry core of
the rvimage repository, together with proofs settling the frozen claims.

Machine integers (u32, i32, usize) are modelled by Nat and Int with the
numeric casts of Rust made explicit; f32/f64 arithmetic is modelled by exact
rationals, with Rust's rounding and saturating/wrapping casts made explicit.
-/

namespace Rv

/-- u32::MAX. -/
def u32max : ℕ := 4294967295

/-- Rust cast of a nonnegative-saturating float-to-u32 conversion applied to an
integral value: negative values go to 0, values above u32::MAX saturate. -/
def intSatU32 (z : ℤ) : ℕ := if z < 0 then 0 else min z.toNat u32max

/-- Rust `as u32` cast on an f64 value, modelled over ℚ: truncation toward zero
followed by saturation into [0, u32::MAX]; negatives (which truncate toward 0
anyway) all land at 0, so flooring first is equivalent. -/
def ratAsU32 (q : ℚ) : ℕ := intSatU32 ⌊q⌋

/-- Rust `as u32` cast on an i32 value: bit reinterpretation, i.e. mod 2^32. -/
def wrapU32 (z : ℤ) : ℕ := (z % (4294967296 : ℤ)).toNat

/-- Rust `as i32` cast applied to an integral f32 value: saturation into the
i32 range. -/
def i32Sat (z : ℤ) : ℤ := max (-2147483648) (min z 2147483647)

/-- Rust f32::round: round half away from zero. -/
def roundAway (q : ℚ) : ℤ := if q < 0 then -⌊-q + 1/2⌋ else ⌊q + 1/2⌋

/-- rvlib/domain.rs: `Shape { w: u32, h: u32 }`. -/
structure Shape where
  w : ℕ
  h : ℕ
deriving DecidableEq, Repr, Inhabited

/-- rvlib/domain.rs: `Shape::new`. -/
def Shape.new (w h : ℕ) : Shape := ⟨w, h⟩

/-- rvlib/domain.rs: `BB { x: u32, y: u32, w: u32, h: u32 }`. -/
structure BB where
  x : ℕ
  y : ℕ
  w : ℕ
  h : ℕ
deriving DecidableEq, Repr, Inhabited

/-- rvlib/domain.rs: `BB::from_arr(&[x, y, w, h])`. -/
def BB.from_arr (a0 a1 a2 a3 : ℕ) : BB := ⟨a0, a1, a2, a3⟩

/-- rvlib/domain.rs: `BB::from_points` normalizes two corners to
(min, min, max - min, max - min); u32 subtraction cannot underflow here. -/
def BB.from_points (p1 p2 : ℕ × ℕ) : BB :=
  { x := min p1.1 p2.1
    y := min p1.2 p2.2
    w := max p1.1 p2.1 - min p1.1 p2.1
    h := max p1.2 p2.2 - min p1.2 p2.2 }

/-- rvlib/domain.rs: `BB::shape`. -/
def BB.shape (bb : BB) : Shape := ⟨bb.w, bb.h⟩

/-- rvlib/domain.rs: `BB::min`. -/
def BB.minCorner (bb : BB) : ℕ × ℕ := (bb.x, bb.y)

/-- rvlib/domain.rs: `BB::max`. -/
def BB.maxCorner (bb : BB) : ℕ × ℕ := (bb.x + bb.w, bb.y + bb.h)

/-- rvlib/domain.rs: `BB::contains`, half-open on the upper side. -/
def BB.contains (bb : BB) (p : ℕ × ℕ) : Bool :=
  decide (bb.x ≤ p.1) && decide (p.1 < bb.x + bb.w) &&
  decide (bb.y ≤ p.2) && decide (p.2 < bb.y + bb.h)

/-- rvlib/domain.rs: `BB::is_contained_in_image` — note the strict
inequalities `x + w < shape.w` and `y + h < shape.h` in the source. -/
def BB.is_contained_in_image (bb : BB) (shape : Shape) : Bool :=
  decide (bb.x + bb.w < shape.w) && decide (bb.y + bb.h < shape.h)

/-- rvlib/domain.rs: `BB::new_shape_checked` — rejects negative positions,
sizes below 1 and boxes not contained in the image; the i32 arguments are
modelled by ℤ and the `as u32` casts on the accepted values by Int.toNat
(the values are nonnegative on that path). -/
def BB.new_shape_checked (x y w h : ℤ) (shape : Shape) : Option BB :=
  if x < 0 ∨ y < 0 ∨ w < 1 ∨ h < 1 then
    none
  else
    let bb : BB := ⟨x.toNat, y.toNat, w.toNat, h.toNat⟩
    if bb.is_contained_in_image shape then some bb else none

/-- rvlib/domain.rs: `BB::translate`. -/
def BB.translate (bb : BB) (x_shift y_shift : ℤ) (shape : Shape) : Option BB :=
  BB.new_shape_checked ((bb.x : ℤ) + x_shift) ((bb.y : ℤ) + y_shift)
    (bb.w : ℤ) (bb.h : ℤ) shape

/-- rvlib/domain.rs: `BB::shift_max` — moves the max corner, i.e. resizes. -/
def BB.shift_max (bb : BB) (x_shift y_shift : ℤ) (shape : Shape) : Option BB :=
  BB.new_shape_checked (bb.x : ℤ) (bb.y : ℤ)
    ((bb.w : ℤ) + x_shift) ((bb.h : ℤ) + y_shift) shape

/-- rvlib/domain.rs: `BB::shift_min` — moves the min corner keeping the max
corner in place. -/
def BB.shift_min (bb : BB) (x_shift y_shift : ℤ) (shape : Shape) : Option BB :=
  BB.new_shape_checked ((bb.x : ℤ) + x_shift) ((bb.y : ℤ) + y_shift)
    ((bb.w : ℤ) - x_shift) ((bb.h : ℤ) - y_shift) shape

/-- rvlib/domain.rs: `shape_unscaled` — the zoom box's shape, or the full
original shape when no zoom box is set. -/
def shape_unscaled (zoom_box : Option BB) (shape_orig : Shape) : Shape :=
  match zoom_box with
  | some z => z.shape
  | none => shape_orig

/-- rvlib/domain.rs: `shape_scaled` — fits the unscaled shape into the window
preserving aspect ratio; both axes are divided by the larger of the two
per-axis ratios and cast back with `as u32`. -/
def shape_scaled (su shape_win : Shape) : Shape :=
  let w_ratio : ℚ := (su.w : ℚ) / (shape_win.w : ℚ)
  let h_ratio : ℚ := (su.h : ℚ) / (shape_win.h : ℚ)
  let rat := max w_ratio h_ratio
  let w_new := ratAsU32 ((su.w : ℚ) / rat)
  let h_new := ratAsU32 ((su.h : ℚ) / rat)
  ⟨w_new, h_new⟩

/-- rvlib/domain.rs: `pos_transform` — the shared generic per-axis transform
routine; both axes use the same closure. -/
def pos_transform (pos : ℕ × ℕ) (shape_orig shape_win : Shape)
    (zoom_box : Option BB) (transform : ℕ → ℕ → ℕ → ℕ → ℕ) : ℕ × ℕ :=
  let unscaled := shape_unscaled zoom_box shape_orig
  let scaled := shape_scaled unscaled shape_win
  let off : ℕ × ℕ :=
    match zoom_box with
    | some c => (c.x, c.y)
    | none => (0, 0)
  (transform pos.1 scaled.w unscaled.w off.1,
   transform pos.2 scaled.h unscaled.h off.2)

/-- rvlib/domain.rs: the `coord_view_2_orig` closure inside
`view_pos_to_orig_pos`: ceil when upscaling (scaled larger than unscaled),
floor otherwise, then `off + tmp as u32`. -/
def coord_view_2_orig (x n_transformed n_orig off : ℕ) : ℕ :=
  let tmp : ℚ := (x : ℚ) * (n_orig : ℚ) / (n_transformed : ℚ)
  let tmpi : ℤ := if n_transformed > n_orig then ⌈tmp⌉ else ⌊tmp⌋
  off + intSatU32 tmpi

/-- rvlib/domain.rs: `coord_orig_2_view`: floor when upscaling, ceil
otherwise. The u32 subtraction x - off is modelled by truncated Nat
subtraction; every call site guards x ≥ off (zoom-box containment). -/
def coord_orig_2_view (x n_transformed n_orig off : ℕ) : ℕ :=
  let tmp : ℚ := ((x - off : ℕ) : ℚ) * (n_transformed : ℚ) / (n_orig : ℚ)
  let tmpi : ℤ := if n_transformed > n_orig then ⌊tmp⌋ else ⌈tmp⌉
  intSatU32 tmpi

/-- rvlib/domain.rs: `view_pos_to_orig_pos`. -/
def view_pos_to_orig_pos (view_pos : ℕ × ℕ) (shape_orig shape_win : Shape)
    (zoom_box : Option BB) : ℕ × ℕ :=
  pos_transform view_pos shape_orig shape_win zoom_box coord_view_2_orig

/-- rvlib/domain.rs: `orig_pos_to_view_pos` — None when the point lies
outside the zoom box. -/
def orig_pos_to_view_pos (orig_pos : ℕ × ℕ) (shape_orig shape_win : Shape)
    (zoom_box : Option BB) : Option (ℕ × ℕ) :=
  match zoom_box with
  | some zb =>
    if zb.contains orig_pos then
      some (pos_transform orig_pos shape_orig shape_win zoom_box
        coord_orig_2_view)
    else
      none
  | none =>
    some (pos_transform orig_pos shape_orig shape_win zoom_box
      coord_orig_2_view)

/-- rvlib/domain.rs: `BB::new_fit_to_image` — clips the box into the image;
i32 arithmetic is modelled by ℤ and the final `as u32` casts by wrapping. -/
def BB.new_fit_to_image (x y w h : ℤ) (shape : Shape) : BB :=
  let clip : ℤ → ℤ → ℤ → ℤ × ℤ := fun var size_bx size_im =>
    if var < 0 then (0, min (size_bx + var) size_im)
    else (var, min (size_bx + var) size_im - var)
  let xw := clip x w (shape.w : ℤ)
  let yh := clip y h (shape.h : ℤ)
  BB.from_arr (wrapU32 xw.1) (wrapU32 yh.1) (wrapU32 xw.2) (wrapU32 yh.2)

/-- rvlib/domain.rs: `BB::center_scale` — scales the box about its center
with f32 arithmetic (modelled by ℚ), rounds, casts to i32 and clips the
result back into the shape via new_fit_to_image (this operation clips
rather than rejects). -/
def BB.center_scale (bb : BB) (factor : ℚ) (shape : Shape) : BB :=
  let x : ℚ := (bb.x : ℚ)
  let y : ℚ := (bb.y : ℚ)
  let w : ℚ := (bb.w : ℚ)
  let h : ℚ := (bb.h : ℚ)
  let cx := w * (1/2) + x
  let cy := h * (1/2) + y
  let x_tl := cx + factor * (x - cx)
  let y_tl := cy + factor * (y - cy)
  let x_br := cx + factor * (x + w - cx)
  let y_br := cy + factor * (y + h - cy)
  BB.new_fit_to_image (i32Sat (roundAway x_tl)) (i32Sat (roundAway y_tl))
    (i32Sat (roundAway (x_br - x_tl))) (i32Sat (roundAway (y_br - y_tl)))
    shape

/-- rvlib/domain.rs: `zoom_box_mouse_wheel` — None is treated as the full
image box, the wheel delta is clipped to [-1, 1], the zoom factor is
1 - clipped*0.1, and the scaled box is always returned as Some. -/
def zoom_box_mouse_wheel (zoom_box : Option BB) (shape_orig : Shape)
    (y_delta : ℚ) : Option BB :=
  let current_zb : BB :=
    match zoom_box with
    | some zb => zb
    | none => BB.from_arr 0 0 shape_orig.w shape_orig.h
  let clip_val : ℚ := 1
  let y_delta_clipped :=
    if y_delta > 0 then min y_delta clip_val else max y_delta (-clip_val)
  let factor := 1 - y_delta_clipped * (1/10)
  some (current_zb.center_scale factor shape_orig)

/-- The `selected_idxs` iterator pattern
`iter().enumerate().filter(|(_, x)| **x).map(|(i, _)| i)` used by
annotations/bbox_annotations.rs (and `util::true_indices` of the
tools_data layer): the indices carrying a true flag, in increasing
order. -/
def true_indices (selected : List Bool) : List ℕ :=
  (List.range selected.length).filter (fun i => selected.getD i false)

/-- Shared loop body `if let Some(bb) = resize(bbs[idx]) { bbs[idx] = bb }`:
a rejected resize (None) leaves the box unchanged; indices out of range
(which would panic in Rust and are never produced by the callers) are
ignored. -/
def resize_at (resize : BB → Option BB) (acc : List BB) (idx : ℕ) :
    List BB :=
  match acc[idx]? with
  | none => acc
  | some b =>
    match resize b with
    | some b2 => acc.set idx b2
    | none => acc

/-- Modelled from the spec: `resize_bbs_inds` of
tools_data/annotations/core.rs is not under src/ (only its callers in
bbox_splitmode.rs are); per §4.5 it applies the resize to the boxes at the
given indices with the rejection semantics of §4.1. -/
def resize_bbs_inds (bbs : List BB) (inds : List ℕ)
    (resize : BB → Option BB) : List BB :=
  inds.foldl (resize_at resize) bbs

namespace Split

/-- Modelled from the spec: `resize_bbs` of tools_data/annotations/core.rs
is not under src/; per §4.5 it applies the resize to exactly the selected
boxes, each with the rejection semantics of §4.1. -/
def resize_bbs (bbs : List BB) (selected_bbs : List Bool)
    (resize : BB → Option BB) : List BB :=
  resize_bbs_inds bbs (true_indices selected_bbs) resize

end Split

/-- Modelled from the spec: the `y_max` accessor of the newer domain.rs is
not under src/; it is the lower edge coordinate y + h (cf. `BB::min_max`
axis 1 in src domain.rs). -/
def BB.y_max (bb : BB) : ℕ := bb.y + bb.h

/-- Modelled from the spec: the `x_max` accessor, x + w (cf. `BB::min_max`
axis 0 in src domain.rs). -/
def BB.x_max (bb : BB) : ℕ := bb.x + bb.w

namespace Split

/-- tools_data/annotations/bbox_splitmode.rs: `resize_bbs_by_key` — for
every selected (shiftee) box, collects the indices of all boxes whose
candidate key equals the shiftee's key, and applies the resize to those
boxes. -/
def resize_bbs_by_key (bbs : List BB) (selected_bbs : List Bool)
    (shiftee_key candidate_key : BB → ℕ) (resize : BB → Option BB) :
    List BB :=
  let indices := true_indices selected_bbs
  let opposite_shiftees := indices.flatMap (fun shiftee_idx =>
    ((bbs.enum.filter (fun t =>
      candidate_key t.2 == shiftee_key (bbs.getD shiftee_idx default))).map
        (fun t => t.1)))
  resize_bbs_inds bbs opposite_shiftees resize

/-- tools_data/annotations/bbox_splitmode.rs: `SplitMode`. -/
inductive SplitMode where
  | Horizontal : SplitMode
  | Vertical : SplitMode
  | None : SplitMode
deriving DecidableEq, Repr

/-- tools_data/annotations/bbox_splitmode.rs: `SplitMode::zero_direction` —
restricts the shift to the split axis. -/
def SplitMode.zero_direction (sm : SplitMode) (x_shift y_shift : ℤ) :
    ℤ × ℤ :=
  match sm with
  | SplitMode.Horizontal => (0, y_shift)
  | SplitMode.Vertical => (x_shift, 0)
  | SplitMode.None => (x_shift, y_shift)

/-- tools_data/annotations/bbox_splitmode.rs: `SplitMode::shift_max_bbs` —
first applies the opposite-direction resize (shift_min) to every box whose
near edge (y for Horizontal, x for Vertical) equals a selected box's far
edge (y_max resp. x_max), then applies shift_max to the selected boxes. -/
def SplitMode.shift_max_bbs (sm : SplitMode) (x_shift y_shift : ℤ)
    (selected_bbs : List Bool) (bbs : List BB) (shape_orig : Shape) :
    List BB :=
  let sh := sm.zero_direction x_shift y_shift
  let bbs2 :=
    match sm with
    | SplitMode.Horizontal =>
      resize_bbs_by_key bbs selected_bbs (fun bb => bb.y_max)
        (fun bb => bb.y) (fun bb => bb.shift_min sh.1 sh.2 shape_orig)
    | SplitMode.Vertical =>
      resize_bbs_by_key bbs selected_bbs (fun bb => bb.x_max)
        (fun bb => bb.x) (fun bb => bb.shift_min sh.1 sh.2 shape_orig)
    | SplitMode.None => bbs
  resize_bbs bbs2 selected_bbs (fun bb => bb.shift_max sh.1 sh.2 shape_orig)

end Split

namespace Anno

/-- Modelled from the spec: `BB::extend_max(i32, i32, Shape) -> Option<BB>`
used by annotations/bbox_annotations.rs is not under src/ (the checked-in
util.rs carries a later, differently-typed extend_max); per §4.1 and the
in-file test it grows the max corner by the shift amounts, keeping x and y,
and returns None when the result would violate the containment invariant
(w ≥ 1, h ≥ 1, x + w ≤ shape.w, y + h ≤ shape.h). -/
def extend_max (bb : BB) (x_shift y_shift : ℤ) (shape : Shape) :
    Option BB :=
  let w := (bb.w : ℤ) + x_shift
  let h := (bb.h : ℤ) + y_shift
  if w < 1 ∨ h < 1 ∨ (bb.x : ℤ) + w > (shape.w : ℤ) ∨
      (bb.y : ℤ) + h > (shape.h : ℤ) then
    none
  else
    some ⟨bb.x, bb.y, w.toNat, h.toNat⟩

/-- annotations/bbox_annotations.rs: the free function `resize_bbs` — loops
over the selected indices and overwrites each box with its extended
version when `extend_max` succeeds. -/
def resize_bbs (bbs : List BB) (selected_bbs : List Bool)
    (x_shift y_shift : ℤ) (shape_orig : Shape) : List BB :=
  (true_indices selected_bbs).foldl
    (resize_at (fun bb => extend_max bb x_shift y_shift shape_orig)) bbs

end Anno

/-- Decimal digit character, code 48 + d. -/
def digitChar (d : ℕ) : Char := Char.ofNat (48 + d)

/-- ASCII digit test, as performed by Rust's u32 parsing: code in 48..57. -/
def charIsDigit (c : Char) : Bool :=
  decide (48 ≤ c.toNat) && decide (c.toNat ≤ 57)

/-- Whitespace test used by `str::trim`; the ASCII whitespace characters
(space and the 9..13 control range) suffice for the strings at play. -/
def charIsWs (c : Char) : Bool :=
  decide (c.toNat = 32) || (decide (9 ≤ c.toNat) && decide (c.toNat ≤ 13))

/-- Decimal rendering of a number, most significant digit first, with an
explicit fuel argument (the fuel never runs out when it exceeds n). -/
def natCharsAux : ℕ → ℕ → List Char
  | 0, _ => []
  | fuel + 1, n =>
    if n < 10 then [digitChar n]
    else natCharsAux fuel (n / 10) ++ [digitChar (n % 10)]

/-- Decimal rendering of a u32 value, as produced by `{}` formatting. -/
def natChars (n : ℕ) : List Char := natCharsAux (n + 1) n

/-- Decimal rendering as a string. -/
def natStr (n : ℕ) : String := ⟨natChars n⟩

/-- rvlib/domain.rs: `impl Display for BB` — the format string is
`"[{}, {}, {} ,{}]"`: the separator between w and h has its space BEFORE
the comma. -/
def bb_display (bb : BB) : String :=
  "[" ++ natStr bb.x ++ ", " ++ natStr bb.y ++ ", " ++ natStr bb.w ++
  " ," ++ natStr bb.h ++ "]"

/-- `str::split(',')` on the character list: splits at every comma, keeping
empty segments (an empty input yields one empty segment). -/
def splitComma (cs : List Char) : List (List Char) :=
  match cs with
  | [] => [[]]
  | c :: rest =>
    if c = ',' then [] :: splitComma rest
    else
      match splitComma rest with
      | [] => [[c]]
      | g :: gs => (c :: g) :: gs

/-- `str::trim` on the character list: removes leading and trailing
whitespace. -/
def trimChars (cs : List Char) : List Char :=
  ((cs.dropWhile charIsWs).reverse.dropWhile charIsWs).reverse

/-- `str::parse::<u32>`: an optional leading plus sign, then at least one
ASCII digit, rejecting values above u32::MAX. -/
def parseU32 (cs : List Char) : Option ℕ :=
  let ds :=
    match cs with
    | c :: rest => if c = '+' then rest else cs
    | [] => cs
  if ds.isEmpty then none
  else if ds.all charIsDigit then
    let v := ds.foldl (fun acc c => acc * 10 + (c.toNat - 48)) 0
    if v ≤ u32max then some v else none
  else none

/-- rvlib/domain.rs: `impl FromStr for BB` — strips the first and last
character, splits on commas, trims and parses the first four segments as
u32 (any missing or unparsable segment is an error; segments beyond the
fourth are ignored). The Rust byte slicing panics on strings shorter than
2 bytes; here the stripped list is simply empty then. -/
def bb_from_str (s : String) : Option BB :=
  let fields := (splitComma ((s.data.drop 1).dropLast)).map
    (fun f => parseU32 (trimChars f))
  match fields with
  | some x :: some y :: some w :: some h :: _ => some ⟨x, y, w, h⟩
  | _ => none

/-- RGB color, `[u8; 3]`. -/
abbrev Rgb := ℕ × ℕ × ℕ

namespace Anno

/-- annotations/bbox_annotations.rs: `BboxAnnotations` — box geometry with
per-entry label, color and selection arrays. -/
structure BboxAnnotations where
  bbs : List BB
  labels : List String
  colors : List Rgb
  selected_bbs : List Bool
deriving DecidableEq, Repr

/-- annotations/bbox_annotations.rs: `BboxAnnotations::new` — one empty
label, one white color and one false flag per box. -/
def BboxAnnotations.new (bbs : List BB) : BboxAnnotations :=
  { bbs := bbs
    labels := List.replicate bbs.length ""
    colors := List.replicate bbs.length (255, 255, 255)
    selected_bbs := List.replicate bbs.length false }

/-- annotations/bbox_annotations.rs: `BboxAnnotations::remove` — removes the
entry at the index from all four arrays and returns the removed box. -/
def BboxAnnotations.remove (a : BboxAnnotations) (box_idx : ℕ) :
    BboxAnnotations × BB :=
  ({ bbs := a.bbs.eraseIdx box_idx
     labels := a.labels.eraseIdx box_idx
     colors := a.colors.eraseIdx box_idx
     selected_bbs := a.selected_bbs.eraseIdx box_idx },
   a.bbs.getD box_idx default)

/-- annotations/bbox_annotations.rs: `BboxAnnotations::remove_selected` —
keeps the entries at unselected indices (in order) and clears the
selection to all-false of the new length. -/
def BboxAnnotations.remove_selected (a : BboxAnnotations) :
    BboxAnnotations :=
  let keep_indices := (List.range a.selected_bbs.length).filter
    (fun i => !(a.selected_bbs.getD i false))
  let new_bbs := keep_indices.map (fun i => a.bbs.getD i default)
  { bbs := new_bbs
    labels := keep_indices.map (fun i => a.labels.getD i "")
    colors := keep_indices.map (fun i => a.colors.getD i (255, 255, 255))
    selected_bbs := List.replicate new_bbs.length false }

/-- annotations/bbox_annotations.rs: `BboxAnnotations::add_bb` — pushes the
box and a false flag always, but pushes a label and a freshly drawn color
(`new_color`, randomized; passed here as the parameter new_clr) only when
the label is not yet present. -/
def BboxAnnotations.add_bb (a : BboxAnnotations) (bb : BB) (label : String)
    (new_clr : Rgb) : BboxAnnotations :=
  let lc :=
    if a.labels.any (fun lab => lab == label) then (a.labels, a.colors)
    else (a.labels ++ [label], a.colors ++ [new_clr])
  { bbs := a.bbs ++ [bb]
    labels := lc.1
    colors := lc.2
    selected_bbs := a.selected_bbs ++ [false] }

/-- annotations/bbox_annotations.rs: `BboxAnnotations::set_label` — reuses
the color of an existing equal label, otherwise writes the new label and a
freshly drawn color (randomized; passed as new_clr). -/
def BboxAnnotations.set_label (a : BboxAnnotations) (idx : ℕ)
    (label : String) (new_clr : Rgb) : BboxAnnotations :=
  match a.labels.enum.find? (fun p => p.2 == label) with
  | some p =>
    { a with
        colors := a.colors.set idx (a.colors.getD p.1 (255, 255, 255))
        labels := a.labels.set idx p.2 }
  | none =>
    { a with
        labels := a.labels.set idx label
        colors := a.colors.set idx new_clr }

/-- annotations/bbox_annotations.rs: `BboxAnnotations::select`. -/
def BboxAnnotations.select (a : BboxAnnotations) (box_idx : ℕ) :
    BboxAnnotations :=
  { a with selected_bbs := a.selected_bbs.set box_idx true }

/-- annotations/bbox_annotations.rs: `BboxAnnotations::deselect`. -/
def BboxAnnotations.deselect (a : BboxAnnotations) (box_idx : ℕ) :
    BboxAnnotations :=
  { a with selected_bbs := a.selected_bbs.set box_idx false }

/-- annotations/bbox_annotations.rs: `BboxAnnotations::toggle_selection`. -/
def BboxAnnotations.toggle_selection (a : BboxAnnotations) (box_idx : ℕ) :
    BboxAnnotations :=
  { a with selected_bbs :=
      a.selected_bbs.set box_idx (!(a.selected_bbs.getD box_idx false)) }

/-- annotations/bbox_annotations.rs: `BboxAnnotations::clear`. -/
def BboxAnnotations.clear (_a : BboxAnnotations) : BboxAnnotations :=
  { bbs := [], labels := [], colors := [], selected_bbs := [] }

/-- The parallel-array invariant claimed for the store: all four arrays
have equal length. -/
def BboxAnnotations.aligned (a : BboxAnnotations) : Prop :=
  a.bbs.length = a.labels.length ∧ a.labels.length = a.colors.length ∧
  a.colors.length = a.selected_bbs.length

instance (a : BboxAnnotations) : Decidable a.aligned := by
  unfold BboxAnnotations.aligned
  infer_instance

end Anno

namespace Bdata

/-- Modelled from the spec: the tools_data-layer bbox annotations store
(tools_data/annotations, not under src/); only the per-file box list and
the parallel category-index list matter to the import path. -/
structure BboxAnnotationsT where
  bbs : List BB
  cat_idxs : List ℕ
deriving DecidableEq, Repr

/-- tools_data/bbox_data.rs: the fields of `BboxSpecificData` relevant to
the import path; the HashMap from file name to annotations is modelled as
an association list. -/
structure BboxSpecificData where
  labels : List String
  colors : List Rgb
  cat_ids : List ℕ
  cat_idx_current : ℕ
  annotations_map : List (String × BboxAnnotationsT)
deriving DecidableEq, Repr

/-- tools_data/bbox_data.rs: `BboxSpecificData::set_annotations_map` —
scans every stored cat_idx first and returns an error (leaving the data,
in particular the existing annotations map, untouched) as soon as one is
≥ the label table length; only if all are in range is the map replaced. -/
def set_annotations_map (d : BboxSpecificData)
    (map : List (String × BboxAnnotationsT)) :
    Except String Unit × BboxSpecificData :=
  match (map.flatMap (fun p => p.2.cat_idxs)).find?
      (fun ci => decide (d.labels.length ≤ ci)) with
  | some ci =>
    (Except.error ("cat idx " ++ toString ci ++
      " does not have a label, out of bounds, " ++
      toString d.labels.length), d)
  | none => (Except.ok (), { d with annotations_map := map })

end Bdata

/-- Modelled from the spec: the pending view update of the World. The
concrete UpdateView type (drawme.rs) is not under src/; only the value
produced by `UpdateView::from_zoombox`, the sole constructor used by
`set_zoom_box`, is distinguished here. -/
inductive UpdateViewM where
  | initial : UpdateViewM
  | from_zoombox : Option BB → UpdateViewM
deriving DecidableEq, Repr

/-- rvlib/world.rs: the World fields involved in zoom-box handling — the
stored zoom box and the pending view update. -/
structure World where
  zoom_box : Option BB
  update_view : UpdateViewM
deriving DecidableEq, Repr

/-- rvlib/world.rs: `World::set_zoom_box` — the closure `set_zb` stores the
new zoom box and requests the corresponding view update; for `Some(zb)` it
only runs when `zb.h > 1 && zb.w > 1`, for `None` it always runs. -/
def World.set_zoom_box (world : World) (zoom_box : Option BB) : World :=
  match zoom_box with
  | some zb =>
    if zb.h > 1 ∧ zb.w > 1 then
      { world with
          zoom_box := zoom_box
          update_view := UpdateViewM.from_zoombox zoom_box }
    else
      world
  | none =>
    { world with
        zoom_box := zoom_box
        update_view := UpdateViewM.from_zoombox zoom_box }

/-- C3: the claim asserts `translate` succeeds exactly on the containment
condition with non-strict bounds x+w ≤ s.w and y+h ≤ s.h; the code uses
strict bounds. Concrete refutation: the box [0,0,10,10] inside the 10×10
shape satisfies the claimed containment after a (0,0) translation, yet
`translate` returns None. -/
theorem translate_claim_counterexample :
    let b : BB := ⟨0, 0, 10, 10⟩
    let s : Shape := Shape.new 10 10
    (0 : ℤ) + 0 ≥ 0 ∧ (0 : ℤ) + 0 ≥ 0 ∧
    b.x + b.w ≤ s.w ∧ b.y + b.h ≤ s.h ∧
    b.translate 0 0 s = none := by
  refine ⟨by decide, by decide, by decide, by decide, ?_⟩
  decide

/-- C3 (amended): `translate` returns Some exactly when the shifted position
is nonnegative, the width and height are at least 1, and the shifted box is
strictly inside the shape (x+w < s.w and y+h < s.h, the source's strict
containment); on success the result is exactly the shifted box, never a
clamped one. -/
theorem translate_some_iff_strictly_contained (b : BB) (s : Shape)
    (dx dy : ℤ) :
    b.translate dx dy s =
      if 0 ≤ (b.x : ℤ) + dx ∧ 0 ≤ (b.y : ℤ) + dy ∧ 1 ≤ (b.w : ℤ) ∧
          1 ≤ (b.h : ℤ) ∧ ((b.x : ℤ) + dx) + b.w < s.w ∧
          ((b.y : ℤ) + dy) + b.h < s.h then
        some ⟨((b.x : ℤ) + dx).toNat, ((b.y : ℤ) + dy).toNat, b.w, b.h⟩
      else
        none := by
  by_cases hc : 0 ≤ (b.x : ℤ) + dx ∧ 0 ≤ (b.y : ℤ) + dy ∧ 1 ≤ (b.w : ℤ) ∧
      1 ≤ (b.h : ℤ) ∧ ((b.x : ℤ) + dx) + b.w < s.w ∧
      ((b.y : ℤ) + dy) + b.h < s.h
  · obtain ⟨hx, hy, hw, hh, hcw, hch⟩ := hc
    rw [if_pos ⟨hx, hy, hw, hh, hcw, hch⟩]
    unfold BB.translate BB.new_shape_checked BB.is_contained_in_image
    rw [if_neg (by omega)]
    have hcont : (decide (((b.x : ℤ) + dx).toNat + ((b.w : ℤ)).toNat < s.w) &&
        decide (((b.y : ℤ) + dy).toNat + ((b.h : ℤ)).toNat < s.h)) = true := by
      simp only [Bool.and_eq_true, decide_eq_true_eq]
      constructor <;> omega
    simp only [hcont, if_true]
    have hwt : ((b.w : ℤ)).toNat = b.w := Int.toNat_natCast b.w
    have hht : ((b.h : ℤ)).toNat = b.h := Int.toNat_natCast b.h
    simp [hwt, hht]
  · rw [if_neg hc]
    unfold BB.translate BB.new_shape_checked BB.is_contained_in_image
    by_cases h1 : (b.x : ℤ) + dx < 0 ∨ (b.y : ℤ) + dy < 0 ∨
        (b.w : ℤ) < 1 ∨ (b.h : ℤ) < 1
    · rw [if_pos h1]
    · rw [if_neg h1]
      have hb : ¬((decide (((b.x : ℤ) + dx).toNat + ((b.w : ℤ)).toNat < s.w) &&
          decide (((b.y : ℤ) + dy).toNat + ((b.h : ℤ)).toNat < s.h)) = true) := by
        simp only [Bool.and_eq_true, decide_eq_true_eq]
        intro hcontra
        exact hc ⟨by omega, by omega, by omega, by omega, by omega, by omega⟩
      simp only [hb, if_false, Bool.false_eq_true]

/-- When the scaled and unscaled extents agree and are positive, the
orig-to-view axis transform is the identity (ceil of an integer). -/
theorem coord_orig_2_view_self (x n : ℕ) (hn : 0 < n) (hx : x ≤ u32max) :
    coord_orig_2_view x n n 0 = x := by
  have hne : ((n : ℚ)) ≠ 0 := by
    exact_mod_cast Nat.cast_ne_zero.mpr hn.ne'
  have htmp : ((x - 0 : ℕ) : ℚ) * (n : ℚ) / (n : ℚ) = (x : ℚ) := by
    rw [Nat.sub_zero, mul_div_assoc, div_self hne, mul_one]
  simp only [coord_orig_2_view, intSatU32, htmp, gt_iff_lt, lt_self_iff_false,
    if_false, Int.ceil_natCast]
  have h0 : ¬((x : ℤ) < 0) := by omega
  rw [if_neg h0, Int.toNat_natCast]
  omega

/-- When the scaled and unscaled extents agree and are positive, the
view-to-orig axis transform is the identity. -/
theorem coord_view_2_orig_self (x n : ℕ) (hn : 0 < n) (hx : x ≤ u32max) :
    coord_view_2_orig x n n 0 = x := by
  have hne : ((n : ℚ)) ≠ 0 := by
    exact_mod_cast Nat.cast_ne_zero.mpr hn.ne'
  have htmp : (x : ℚ) * (n : ℚ) / (n : ℚ) = (x : ℚ) := by
    rw [mul_div_assoc, div_self hne, mul_one]
  simp only [coord_view_2_orig, intSatU32, htmp, gt_iff_lt, lt_self_iff_false,
    if_false, Int.floor_natCast]
  have h0 : ¬((x : ℤ) < 0) := by omega
  rw [if_neg h0, Int.toNat_natCast]
  omega

/-- Scaling a shape into a window of exactly its own size is the identity
(the ratio is exactly 1). -/
theorem shape_scaled_self (s : Shape) (hw : 0 < s.w) (hh : 0 < s.h)
    (hwm : s.w ≤ u32max) (hhm : s.h ≤ u32max) :
    shape_scaled s s = s := by
  unfold shape_scaled
  have hwne : ((s.w : ℚ)) ≠ 0 := by
    exact_mod_cast Nat.cast_ne_zero.mpr hw.ne'
  have hhne : ((s.h : ℚ)) ≠ 0 := by
    exact_mod_cast Nat.cast_ne_zero.mpr hh.ne'
  have hw1 : (s.w : ℚ) / (s.w : ℚ) = 1 := div_self hwne
  have hh1 : (s.h : ℚ) / (s.h : ℚ) = 1 := div_self hhne
  simp only [hw1, hh1, max_self, div_one]
  unfold ratAsU32 intSatU32
  rw [Int.floor_natCast, Int.floor_natCast]
  have h0w : ¬((s.w : ℤ) < 0) := by omega
  have h0h : ¬((s.h : ℤ) < 0) := by omega
  rw [if_neg h0w, if_neg h0h, Int.toNat_natCast, Int.toNat_natCast]
  have : min s.w u32max = s.w := min_eq_left hwm
  have h2 : min s.h u32max = s.h := min_eq_left hhm
  simp [this, h2]

/-- Fitting a 40×40 image into a 10×10 window scales both axes by 1/4. -/
theorem shape_scaled_40_into_10 :
    shape_scaled (Shape.new 40 40) (Shape.new 10 10) = Shape.new 10 10 := by
  simp only [shape_scaled, Shape.new, ratAsU32, intSatU32]
  norm_num
  decide

/-- Axis value of the orig-to-view transform at the 4:1 downscale. -/
theorem coord_orig_2_view_downscale_val : coord_orig_2_view 1 10 40 0 = 1 := by
  have hc : (⌈(1 : ℚ) / 4⌉ : ℤ) = 1 := by
    rw [Int.ceil_eq_iff]
    norm_num
  simp only [coord_orig_2_view, intSatU32]
  norm_num [hc]
  decide

/-- Axis value of the view-to-orig transform at the 4:1 downscale. -/
theorem coord_view_2_orig_downscale_val : coord_view_2_orig 1 10 40 0 = 4 := by
  have hc : (⌊(1 : ℚ) * 40 / 10⌋ : ℤ) = 4 := by
    rw [Int.floor_eq_iff]
    norm_num
  simp only [coord_view_2_orig, intSatU32]
  norm_num [hc]
  decide

/-- C1: the claimed ±2-pixel round-trip bound fails: with
shape_orig = 40×40, shape_win = 10×10 and no zoom box (a 4:1 downscale,
so p = (1,1) is in the visible region), mapping (1,1) to the view gives
(1,1) and mapping back gives (4,4) — an error of 3 pixels per axis. -/
theorem roundtrip_bound_counterexample :
    orig_pos_to_view_pos (1, 1) (Shape.new 40 40) (Shape.new 10 10) none =
      some (1, 1) ∧
    view_pos_to_orig_pos (1, 1) (Shape.new 40 40) (Shape.new 10 10) none =
      (4, 4) ∧
    ¬(((4 : ℤ) - 1 ≤ 2) ∧ ((4 : ℤ) - 1 ≤ 2)) := by
  refine ⟨?_, ?_, by decide⟩
  · simp only [orig_pos_to_view_pos, pos_transform, shape_unscaled]
    rw [show shape_scaled ((Shape.new 40 40) : Shape) (Shape.new 10 10) =
      Shape.new 10 10 from shape_scaled_40_into_10]
    simp only [Shape.new]
    rw [coord_orig_2_view_downscale_val]
  · simp only [view_pos_to_orig_pos, pos_transform, shape_unscaled]
    rw [show shape_scaled ((Shape.new 40 40) : Shape) (Shape.new 10 10) =
      Shape.new 10 10 from shape_scaled_40_into_10]
    simp only [Shape.new]
    rw [coord_view_2_orig_downscale_val]

/-- C1 (amended): the round trip view_to_orig ∘ orig_to_view is exactly the
identity when the scale ratio is exact, e.g. shape_orig = shape_win with no
zoom box; in general (large downscale or upscale ratios) the deviation is
not bounded by 2 pixels. This theorem proves the exact-ratio part. -/
theorem roundtrip_exact_when_shapes_equal (s : Shape) (p : ℕ × ℕ)
    (hw : 0 < s.w) (hh : 0 < s.h) (hwm : s.w ≤ u32max) (hhm : s.h ≤ u32max)
    (hpx : p.1 < s.w) (hpy : p.2 < s.h) :
    orig_pos_to_view_pos p s s none = some p ∧
    view_pos_to_orig_pos p s s none = p ∧
    view_pos_to_orig_pos ((orig_pos_to_view_pos p s s none).getD p)
      s s none = p := by
  have hsc : shape_scaled (shape_unscaled none s) s = s := by
    show shape_scaled s s = s
    exact shape_scaled_self s hw hh hwm hhm
  have hview : orig_pos_to_view_pos p s s none = some p := by
    unfold orig_pos_to_view_pos pos_transform
    simp only [hsc]
    show some (coord_orig_2_view p.1 s.w s.w 0,
      coord_orig_2_view p.2 s.h s.h 0) = some p
    rw [coord_orig_2_view_self p.1 s.w hw (by omega),
      coord_orig_2_view_self p.2 s.h hh (by omega)]
  have horig : view_pos_to_orig_pos p s s none = p := by
    unfold view_pos_to_orig_pos pos_transform
    simp only [hsc]
    show (coord_view_2_orig p.1 s.w s.w 0, coord_view_2_orig p.2 s.h s.h 0)
      = p
    rw [coord_view_2_orig_self p.1 s.w hw (by omega),
      coord_view_2_orig_self p.2 s.h hh (by omega)]
  refine ⟨hview, horig, ?_⟩
  rw [hview]
  exact horig

/-- Concrete witness for the exact-ratio round trip: 3×4 image in a 3×4
window, point (1,2). -/
theorem roundtrip_exact_witness :
    orig_pos_to_view_pos (1, 2) (Shape.new 3 4) (Shape.new 3 4) none =
      some (1, 2) ∧
    view_pos_to_orig_pos (1, 2) (Shape.new 3 4) (Shape.new 3 4) none =
      (1, 2) ∧
    view_pos_to_orig_pos
      ((orig_pos_to_view_pos (1, 2) (Shape.new 3 4) (Shape.new 3 4)
        none).getD (1, 2)) (Shape.new 3 4) (Shape.new 3 4) none = (1, 2) :=
  roundtrip_exact_when_shapes_equal (Shape.new 3 4) (1, 2) (by decide)
    (by decide) (by decide) (by decide) (by decide) (by decide)

/-- C5: `zoom_box_mouse_wheel` clips the wheel delta into [-1, 1], applies
`center_scale` with factor 1 - clipped*0.1 to the current zoom box (the
full-image box when the current zoom box is None), and always returns
Some. -/
theorem zoom_box_mouse_wheel_clips_and_is_some (zb : Option BB) (s : Shape)
    (d : ℚ) :
    (-1 ≤ (if d > 0 then min d 1 else max d (-1)) ∧
      (if d > 0 then min d 1 else max d (-1)) ≤ 1) ∧
    zoom_box_mouse_wheel zb s d =
      some ((zb.getD (BB.from_arr 0 0 s.w s.h)).center_scale
        (1 - (if d > 0 then min d 1 else max d (-1)) * (1/10)) s) ∧
    (zoom_box_mouse_wheel zb s d).isSome = true := by
  refine ⟨⟨?_, ?_⟩, ?_, ?_⟩
  · by_cases hd : d > 0
    · simp only [if_pos hd]
      exact le_min (by linarith) (by norm_num)
    · simp only [if_neg hd]
      exact le_max_right d (-1)
  · by_cases hd : d > 0
    · simp only [if_pos hd]
      exact min_le_right d 1
    · simp only [if_neg hd]
      push_neg at hd
      exact max_le (by linarith) (by norm_num)
  · cases zb <;> rfl
  · cases zb <;> rfl

/-- C4: `BB::from_points((0,0),(0,0))` evaluates to the degenerate box
{x:0, y:0, w:0, h:0}: the zero-size input is neither rejected nor
normalized to 1×1, contradicting the specified minimum-size behaviour. -/
theorem from_points_zero_gives_degenerate_box :
    BB.from_points (0, 0) (0, 0) = ⟨0, 0, 0, 0⟩ ∧
    (BB.from_points (0, 0) (0, 0)).w = 0 ∧
    (BB.from_points (0, 0) (0, 0)).h = 0 := by
  refine ⟨rfl, rfl, rfl⟩

/-- C2: in Horizontal split mode, shifting the bottom edge of the selected
box1 = [0,0,10,10] by +5 moves the top edge of the adjacent unselected
box2 = [0,10,10,10] down by 5 as well: the result is box1 = [0,0,10,15]
and box2 = [0,15,10,5], which still share the boundary y = 15 with no gap
and no overlap. -/
theorem split_horizontal_shared_edge_scenario :
    Split.SplitMode.Horizontal.shift_max_bbs 0 5 [true, false]
      [⟨0, 0, 10, 10⟩, ⟨0, 10, 10, 10⟩] (Shape.new 100 100) =
      [⟨0, 0, 10, 15⟩, ⟨0, 15, 10, 5⟩] ∧
    (⟨0, 0, 10, 15⟩ : BB).y_max = (⟨0, 15, 10, 5⟩ : BB).y := by
  refine ⟨by decide, by decide⟩

/-- The resize loop body changes at most the entry at its index, to the
(attempted) resized value; all other entries are untouched. -/
theorem resize_at_getElem (resize : BB → Option BB) (bbs : List BB)
    (a j : ℕ) :
    (resize_at resize bbs a)[j]? =
      if j = a then (bbs[j]?).map (fun b => (resize b).getD b)
      else bbs[j]? := by
  by_cases hj : j = a
  · subst hj
    rw [if_pos rfl]
    cases hba : bbs[j]? with
    | none =>
      have hacc : resize_at resize bbs j = bbs := by
        unfold resize_at
        rw [hba]
      rw [hacc, hba]
      rfl
    | some b =>
      cases hf : resize b with
      | none =>
        have hacc : resize_at resize bbs j = bbs := by
          unfold resize_at
          rw [hba]
          show (match resize b with
            | some b2 => bbs.set j b2
            | none => bbs) = bbs
          rw [hf]
        rw [hacc, hba]
        simp [hf]
      | some b2 =>
        have hlt : j < bbs.length := (List.getElem?_eq_some_iff.mp hba).1
        have hacc : resize_at resize bbs j = bbs.set j b2 := by
          unfold resize_at
          rw [hba]
          show (match resize b with
            | some b2 => bbs.set j b2
            | none => bbs) = bbs.set j b2
          rw [hf]
        rw [hacc, List.getElem?_set_self hlt]
        simp [hba, hf]
  · rw [if_neg hj]
    cases hba : bbs[a]? with
    | none =>
      have hacc : resize_at resize bbs a = bbs := by
        unfold resize_at
        rw [hba]
      rw [hacc]
    | some b =>
      cases hf : resize b with
      | none =>
        have hacc : resize_at resize bbs a = bbs := by
          unfold resize_at
          rw [hba]
          show (match resize b with
            | some b2 => bbs.set a b2
            | none => bbs) = bbs
          rw [hf]
        rw [hacc]
      | some b2 =>
        have hacc : resize_at resize bbs a = bbs.set a b2 := by
          unfold resize_at
          rw [hba]
          show (match resize b with
            | some b2 => bbs.set a b2
            | none => bbs) = bbs.set a b2
          rw [hf]
        rw [hacc]
        exact List.getElem?_set_ne (Ne.symm hj)

/-- Folding the resize loop body over distinct indices changes exactly the
entries at those indices, each to its (attempted) resized value. -/
theorem foldl_resize_at_getElem (resize : BB → Option BB) (inds : List ℕ)
    (bbs : List BB) (hnd : inds.Nodup) (i : ℕ) :
    (inds.foldl (resize_at resize) bbs)[i]? =
      if i ∈ inds then (bbs[i]?).map (fun b => (resize b).getD b)
      else bbs[i]? := by
  induction inds generalizing bbs with
  | nil =>
    simp
  | cons a t ih =>
    rw [List.nodup_cons] at hnd
    obtain ⟨hat, hnt⟩ := hnd
    rw [List.foldl_cons, ih (resize_at resize bbs a) hnt]
    by_cases hit : i ∈ t
    · have hia : i ≠ a := fun he => hat (he ▸ hit)
      rw [if_pos hit, if_pos (List.mem_cons_of_mem a hit),
        resize_at_getElem, if_neg hia]
    · by_cases hia : i = a
      · subst hia
        rw [if_neg hit, if_pos (List.mem_cons_self i t),
          resize_at_getElem, if_pos rfl]
      · rw [if_neg hit,
          if_neg (fun hmem => (List.mem_cons.mp hmem).elim hia hit),
          resize_at_getElem, if_neg hia]

/-- The resize loop body preserves the number of boxes. -/
theorem resize_at_length (resize : BB → Option BB) (bbs : List BB)
    (a : ℕ) : (resize_at resize bbs a).length = bbs.length := by
  unfold resize_at
  cases hba : bbs[a]? with
  | none => rfl
  | some b =>
    show (match resize b with
      | some b2 => bbs.set a b2
      | none => bbs).length = bbs.length
    cases hf : resize b with
    | none => rfl
    | some b2 => exact List.length_set bbs a b2

/-- The resize loop preserves the number of boxes. -/
theorem foldl_resize_at_length (resize : BB → Option BB) (inds : List ℕ)
    (bbs : List BB) :
    (inds.foldl (resize_at resize) bbs).length = bbs.length := by
  induction inds generalizing bbs with
  | nil => rfl
  | cons a t ih =>
    rw [List.foldl_cons, ih, resize_at_length]

/-- The selected-index list is duplicate-free. -/
theorem true_indices_nodup (sel : List Bool) : (true_indices sel).Nodup :=
  (List.nodup_range sel.length).filter _

/-- Membership in the selected-index list. -/
theorem mem_true_indices (sel : List Bool) (i : ℕ) :
    i ∈ true_indices sel ↔ i < sel.length ∧ sel.getD i false = true := by
  unfold true_indices
  rw [List.mem_filter, List.mem_range]

/-- C7: `resize_bbs` keeps the box count, never changes the geometry of a
box whose selection flag is false, maps every selected box to its
`extend_max` result when that succeeds, and leaves a selected box fully
unchanged when its resize would leave the image bounds (extend_max
rejects). -/
theorem resize_bbs_selection_gated (bbs : List BB) (sel : List Bool)
    (xs ys : ℤ) (shape : Shape) (i : ℕ) :
    (Anno.resize_bbs bbs sel xs ys shape).length = bbs.length ∧
    (sel.getD i false = false →
      (Anno.resize_bbs bbs sel xs ys shape)[i]? = bbs[i]?) ∧
    (∀ b, bbs[i]? = some b → sel.getD i false = true →
      (Anno.resize_bbs bbs sel xs ys shape)[i]? =
        some ((Anno.extend_max b xs ys shape).getD b)) ∧
    (∀ b, bbs[i]? = some b → sel.getD i false = true →
      Anno.extend_max b xs ys shape = none →
      (Anno.resize_bbs bbs sel xs ys shape)[i]? = some b) := by
  have hchar := foldl_resize_at_getElem
    (fun bb => Anno.extend_max bb xs ys shape) (true_indices sel) bbs
    (true_indices_nodup sel) i
  refine ⟨foldl_resize_at_length _ _ _, ?_, ?_, ?_⟩
  · intro hfalse
    unfold Anno.resize_bbs
    rw [hchar, if_neg]
    intro hmem
    rcases (mem_true_indices sel i).mp hmem with ⟨_, htrue⟩
    rw [hfalse] at htrue
    exact Bool.false_ne_true htrue
  · intro b hb htrue
    have hlen : i < sel.length := by
      by_contra hge
      rw [List.getD_eq_default] at htrue
      · exact Bool.false_ne_true htrue
      · omega
    unfold Anno.resize_bbs
    rw [hchar, if_pos ((mem_true_indices sel i).mpr ⟨hlen, htrue⟩), hb]
    rfl
  · intro b hb htrue hnone
    have hlen : i < sel.length := by
      by_contra hge
      rw [List.getD_eq_default] at htrue
      · exact Bool.false_ne_true htrue
      · omega
    unfold Anno.resize_bbs
    rw [hchar, if_pos ((mem_true_indices sel i).mpr ⟨hlen, htrue⟩), hb]
    simp [hnone]

/-- Concrete witness for the selection-gated resize: with selection
[false, true], box 0 is untouched and box 1 is extended by (-1, 1). -/
theorem resize_bbs_selection_witness :
    (Anno.resize_bbs [⟨0, 0, 10, 10⟩, ⟨5, 5, 10, 10⟩] [false, true]
      (-1) 1 (Shape.new 100 100))[0]? =
      ([⟨0, 0, 10, 10⟩, ⟨5, 5, 10, 10⟩] : List BB)[0]? ∧
    (Anno.resize_bbs [⟨0, 0, 10, 10⟩, ⟨5, 5, 10, 10⟩] [false, true]
      (-1) 1 (Shape.new 100 100))[1]? =
      some ((Anno.extend_max ⟨5, 5, 10, 10⟩ (-1) 1
        (Shape.new 100 100)).getD ⟨5, 5, 10, 10⟩) :=
  ⟨(resize_bbs_selection_gated [⟨0, 0, 10, 10⟩, ⟨5, 5, 10, 10⟩]
      [false, true] (-1) 1 (Shape.new 100 100) 0).2.1 (by decide),
   (resize_bbs_selection_gated [⟨0, 0, 10, 10⟩, ⟨5, 5, 10, 10⟩]
      [false, true] (-1) 1 (Shape.new 100 100) 1).2.2.1 ⟨5, 5, 10, 10⟩
      (by decide) (by decide)⟩

/-- The five facts needed about a digit character. -/
theorem digitChar_facts (d : ℕ) (hd : d < 10) :
    (digitChar d).toNat = 48 + d ∧ charIsDigit (digitChar d) = true ∧
    charIsWs (digitChar d) = false ∧ digitChar d ≠ ',' ∧
    digitChar d ≠ '+' := by
  interval_cases d <;>
    exact ⟨by decide, by decide, by decide, by decide, by decide⟩

/-- A digit character is not whitespace. -/
theorem charIsDigit_not_ws (c : Char) (h : charIsDigit c = true) :
    charIsWs c = false := by
  unfold charIsDigit at h
  unfold charIsWs
  rw [Bool.and_eq_true, decide_eq_true_eq, decide_eq_true_eq] at h
  rw [Bool.or_eq_false_iff, Bool.and_eq_false_iff]
  refine ⟨by simpa using (by omega : ¬(c.toNat = 32)), Or.inr ?_⟩
  simpa using (by omega : ¬(c.toNat ≤ 13))

/-- A digit character is not a comma. -/
theorem charIsDigit_ne_comma (c : Char) (h : charIsDigit c = true) :
    c ≠ ',' := by
  unfold charIsDigit at h
  rw [Bool.and_eq_true, decide_eq_true_eq, decide_eq_true_eq] at h
  intro he
  subst he
  revert h
  decide

/-- With enough fuel the decimal rendering is nonempty, all digits, and
folds back to the rendered number. -/
theorem natCharsAux_spec (fuel : ℕ) :
    ∀ n acc, n < fuel →
      natCharsAux fuel n ≠ [] ∧
      (∀ c ∈ natCharsAux fuel n, charIsDigit c = true) ∧
      (natCharsAux fuel n).foldl (fun a c => a * 10 + (c.toNat - 48)) acc =
        acc * 10 ^ (natCharsAux fuel n).length + n := by
  induction fuel with
  | zero =>
    intro n acc hn
    omega
  | succ fuel ih =>
    intro n acc hn
    by_cases h10 : n < 10
    · have hb : natCharsAux (fuel + 1) n = [digitChar n] := by
        show (if n < 10 then [digitChar n]
          else natCharsAux fuel (n / 10) ++ [digitChar (n % 10)]) =
          [digitChar n]
        rw [if_pos h10]
      obtain ⟨ht, hdg1, _, _, _⟩ := digitChar_facts n h10
      refine ⟨by simp [hb], ?_, ?_⟩
      · intro c hc
        rw [hb, List.mem_singleton] at hc
        subst hc
        exact hdg1
      · rw [hb]
        simp only [List.foldl_cons, List.foldl_nil, List.length_singleton,
          ht, pow_one]
        omega
    · have hb : natCharsAux (fuel + 1) n =
          natCharsAux fuel (n / 10) ++ [digitChar (n % 10)] := by
        show (if n < 10 then [digitChar n]
          else natCharsAux fuel (n / 10) ++ [digitChar (n % 10)]) =
          natCharsAux fuel (n / 10) ++ [digitChar (n % 10)]
        rw [if_neg h10]
      have hrec : n / 10 < fuel := by omega
      obtain ⟨hne, hdig, hvrec⟩ := ih (n / 10) acc hrec
      obtain ⟨ht, hdg, _, _, _⟩ := digitChar_facts (n % 10) (by omega)
      refine ⟨by simp [hb], ?_, ?_⟩
      · intro c hc
        rw [hb, List.mem_append, List.mem_singleton] at hc
        rcases hc with hc | hc
        · exact hdig c hc
        · subst hc
          exact hdg
      · rw [hb, List.foldl_append, hvrec]
        simp only [List.foldl_cons, List.foldl_nil, List.length_append,
          List.length_singleton, ht]
        have hmod : 48 + n % 10 - 48 = n % 10 := by omega
        rw [hmod, pow_succ]
        have hdm : n / 10 * 10 + n % 10 = n := by omega
        calc (acc * 10 ^ (natCharsAux fuel (n / 10)).length + n / 10) * 10 +
              n % 10
            = acc * (10 ^ (natCharsAux fuel (n / 10)).length * 10) +
              (n / 10 * 10 + n % 10) := by ring
          _ = acc * (10 ^ (natCharsAux fuel (n / 10)).length * 10) + n := by
              rw [hdm]

/-- The decimal rendering folds back to the rendered number. -/
theorem natChars_spec (n : ℕ) :
    natChars n ≠ [] ∧ (∀ c ∈ natChars n, charIsDigit c = true) ∧
    (natChars n).foldl (fun a c => a * 10 + (c.toNat - 48)) 0 = n := by
  obtain ⟨h1, h2, h3⟩ := natCharsAux_spec (n + 1) n 0 (by omega)
  exact ⟨h1, h2, by simpa using h3⟩

/-- The one-step equation of splitComma on a cons cell. -/
theorem splitComma_cons (c : Char) (rest : List Char) :
    splitComma (c :: rest) =
      if c = ',' then [] :: splitComma rest
      else
        match splitComma rest with
        | [] => [[c]]
        | g :: gs => (c :: g) :: gs := rfl

/-- Splitting a comma-free segment yields that one segment. -/
theorem splitComma_no_comma (cs : List Char)
    (h : ∀ c ∈ cs, c ≠ ',') : splitComma cs = [cs] := by
  induction cs with
  | nil => rfl
  | cons c rest ih =>
    rw [splitComma_cons, if_neg (h c (List.mem_cons_self c rest)),
      ih (fun x hx => h x (List.mem_cons_of_mem c hx))]

/-- Splitting distributes over the first comma after a comma-free
segment. -/
theorem splitComma_append_comma (a rest : List Char)
    (h : ∀ c ∈ a, c ≠ ',') :
    splitComma (a ++ ',' :: rest) = a :: splitComma rest := by
  induction a with
  | nil =>
    show splitComma (',' :: rest) = [] :: splitComma rest
    rw [splitComma_cons, if_pos rfl]
  | cons c a2 ih =>
    have hc : c ≠ ',' := h c (List.mem_cons_self c a2)
    have ha2 : ∀ x ∈ a2, x ≠ ',' :=
      fun x hx => h x (List.mem_cons_of_mem c hx)
    show splitComma (c :: (a2 ++ ',' :: rest)) = (c :: a2) :: splitComma rest
    rw [splitComma_cons, if_neg hc, ih ha2]

/-- dropWhile skips a prefix on which the predicate holds. -/
theorem dropWhile_ws_append (pre l : List Char)
    (hpre : ∀ c ∈ pre, charIsWs c = true) :
    (pre ++ l).dropWhile charIsWs = l.dropWhile charIsWs := by
  induction pre with
  | nil => rfl
  | cons c p2 ih =>
    show ((c :: (p2 ++ l)).dropWhile charIsWs) = l.dropWhile charIsWs
    rw [List.dropWhile_cons_of_pos (hpre c (List.mem_cons_self c p2))]
    exact ih (fun x hx => hpre x (List.mem_cons_of_mem c hx))

/-- Trimming removes exactly an all-whitespace prefix and suffix around a
nonempty whitespace-free core. -/
theorem trimChars_pre_suf (ds pre suf : List Char) (hne : ds ≠ [])
    (hd : ∀ c ∈ ds, charIsWs c = false)
    (hpre : ∀ c ∈ pre, charIsWs c = true)
    (hsuf : ∀ c ∈ suf, charIsWs c = true) :
    trimChars (pre ++ ds ++ suf) = ds := by
  obtain ⟨d, rest, hds⟩ : ∃ d rest, ds = d :: rest := by
    cases ds with
    | nil => exact absurd rfl hne
    | cons d rest => exact ⟨d, rest, rfl⟩
  unfold trimChars
  have h1 : (pre ++ ds ++ suf).dropWhile charIsWs = ds ++ suf := by
    rw [List.append_assoc, dropWhile_ws_append pre (ds ++ suf) hpre, hds]
    show ((d :: (rest ++ suf)).dropWhile charIsWs) = (d :: rest) ++ suf
    rw [List.dropWhile_cons_of_neg (by
      rw [hd d (by rw [hds]; exact List.mem_cons_self d rest)]
      exact Bool.false_ne_true)]
    rfl
  rw [h1, List.reverse_append]
  rw [dropWhile_ws_append suf.reverse ds.reverse
    (fun x hx => hsuf x (List.mem_reverse.mp hx))]
  obtain ⟨e, rev2, hrev⟩ : ∃ e rev2, ds.reverse = e :: rev2 := by
    cases hrv : ds.reverse with
    | nil => exact absurd (List.reverse_eq_nil_iff.mp hrv) hne
    | cons e rev2 => exact ⟨e, rev2, rfl⟩
  rw [hrev]
  rw [List.dropWhile_cons_of_neg (by
    rw [hd e (List.mem_reverse.mp (hrev ▸ List.mem_cons_self e rev2))]
    exact Bool.false_ne_true)]
  rw [← hrev, List.reverse_reverse]

/-- Parsing the decimal rendering of a u32 value recovers the value. -/
theorem parseU32_natChars (n : ℕ) (hn : n ≤ u32max) :
    parseU32 (natChars n) = some n := by
  obtain ⟨hne, hdig, hval⟩ := natChars_spec n
  obtain ⟨d, rest, hds⟩ : ∃ d rest, natChars n = d :: rest := by
    cases hnc : natChars n with
    | nil => exact absurd hnc hne
    | cons d rest => exact ⟨d, rest, rfl⟩
  have hdnotplus : d ≠ '+' := by
    have hdd : charIsDigit d = true :=
      hdig d (hds ▸ List.mem_cons_self d rest)
    unfold charIsDigit at hdd
    rw [Bool.and_eq_true, decide_eq_true_eq, decide_eq_true_eq] at hdd
    intro he
    subst he
    revert hdd
    decide
  unfold parseU32
  rw [hds]
  simp only [if_neg hdnotplus]
  rw [if_neg (by simp : ¬(d :: rest).isEmpty = true)]
  rw [if_pos (by
    rw [List.all_eq_true]
    intro c hc
    exact hdig c (hds ▸ hc))]
  rw [show (d :: rest) = natChars n from hds.symm, hval, if_pos hn]

/-- C6: the claimed rendering "[x, y, w, h]" (a single space after every
comma) is wrong: the format string is `"[{}, {}, {} ,{}]"`, so the third
separator has its space before the comma. -/
theorem bb_display_separator_counterexample :
    bb_display ⟨1, 2, 3, 4⟩ = "[1, 2, 3 ,4]" ∧
    bb_display ⟨1, 2, 3, 4⟩ ≠ "[1, 2, 3, 4]" := by
  constructor
  · decide
  · decide

/-- C6 (amended): every BB renders as "[x, y, w ,h]" — with the space
before the comma in the third separator — and parsing the rendered string
with the strict 4-field u32 FromStr implementation recovers the original
box, while malformed input (e.g. "[abc]") fails. -/
theorem display_from_str_roundtrip (b : BB)
    (hx : b.x ≤ u32max) (hy : b.y ≤ u32max) (hw : b.w ≤ u32max)
    (hh : b.h ≤ u32max) :
    bb_from_str (bb_display b) = some b ∧ bb_from_str "[abc]" = none := by
  obtain ⟨hneX, hdX, _⟩ := natChars_spec b.x
  obtain ⟨hneY, hdY, _⟩ := natChars_spec b.y
  obtain ⟨hneW, hdW, _⟩ := natChars_spec b.w
  obtain ⟨hneH, hdH, _⟩ := natChars_spec b.h
  have hncX : ∀ c ∈ natChars b.x, c ≠ ',' :=
    fun c hc => charIsDigit_ne_comma c (hdX c hc)
  have hncY : ∀ c ∈ natChars b.y, c ≠ ',' :=
    fun c hc => charIsDigit_ne_comma c (hdY c hc)
  have hncW : ∀ c ∈ natChars b.w, c ≠ ',' :=
    fun c hc => charIsDigit_ne_comma c (hdW c hc)
  have hncH : ∀ c ∈ natChars b.h, c ≠ ',' :=
    fun c hc => charIsDigit_ne_comma c (hdH c hc)
  have hwsX : ∀ c ∈ natChars b.x, charIsWs c = false :=
    fun c hc => charIsDigit_not_ws c (hdX c hc)
  have hwsY : ∀ c ∈ natChars b.y, charIsWs c = false :=
    fun c hc => charIsDigit_not_ws c (hdY c hc)
  have hwsW : ∀ c ∈ natChars b.w, charIsWs c = false :=
    fun c hc => charIsDigit_not_ws c (hdW c hc)
  have hwsH : ∀ c ∈ natChars b.h, charIsWs c = false :=
    fun c hc => charIsDigit_not_ws c (hdH c hc)
  have hdata : (bb_display b).data =
      '[' :: ((natChars b.x ++
        ',' :: ((' ' :: natChars b.y) ++
          ',' :: ((' ' :: (natChars b.w ++ [' '])) ++
            ',' :: natChars b.h))) ++ [']']) := by
    simp only [bb_display, String.data_append]
    show ['['] ++ natChars b.x ++ [',', ' '] ++ natChars b.y ++ [',', ' ']
        ++ natChars b.w ++ [' ', ','] ++ natChars b.h ++ [']'] = _
    simp [List.append_assoc]
  have hinner : (((bb_display b).data.drop 1).dropLast) =
      natChars b.x ++
        ',' :: ((' ' :: natChars b.y) ++
          ',' :: ((' ' :: (natChars b.w ++ [' '])) ++
            ',' :: natChars b.h)) := by
    rw [hdata, List.drop_one]
    show ((natChars b.x ++
        ',' :: ((' ' :: natChars b.y) ++
          ',' :: ((' ' :: (natChars b.w ++ [' '])) ++
            ',' :: natChars b.h))) ++ [']']).dropLast = _
    exact List.dropLast_concat
  have hsplit : splitComma (((bb_display b).data.drop 1).dropLast) =
      [natChars b.x, ' ' :: natChars b.y, ' ' :: (natChars b.w ++ [' ']),
        natChars b.h] := by
    rw [hinner, splitComma_append_comma _ _ hncX,
      splitComma_append_comma _ _ (by
        intro c hc
        rcases List.mem_cons.mp hc with hc | hc
        · subst hc
          decide
        · exact hncY c hc),
      splitComma_append_comma _ _ (by
        intro c hc
        rcases List.mem_cons.mp hc with hc | hc
        · subst hc
          decide
        · rcases List.mem_append.mp hc with hc | hc
          · exact hncW c hc
          · rw [List.mem_singleton] at hc
            subst hc
            decide),
      splitComma_no_comma _ hncH]
  have htrimX : trimChars (natChars b.x) = natChars b.x := by
    have := trimChars_pre_suf (natChars b.x) [] [] hneX hwsX
      (by simp) (by simp)
    simpa using this
  have htrimY : trimChars (' ' :: natChars b.y) = natChars b.y := by
    have := trimChars_pre_suf (natChars b.y) [' '] [] hneY hwsY
      (by simp; decide) (by simp)
    simpa using this
  have htrimW : trimChars (' ' :: (natChars b.w ++ [' '])) = natChars b.w := by
    have := trimChars_pre_suf (natChars b.w) [' '] [' '] hneW hwsW
      (by simp; decide) (by simp; decide)
    simpa [List.append_assoc] using this
  have htrimH : trimChars (natChars b.h) = natChars b.h := by
    have := trimChars_pre_suf (natChars b.h) [] [] hneH hwsH
      (by simp) (by simp)
    simpa using this
  constructor
  · unfold bb_from_str
    rw [hsplit]
    simp only [List.map_cons, List.map_nil]
    rw [htrimX, htrimY, htrimW, htrimH,
      parseU32_natChars b.x hx, parseU32_natChars b.y hy,
      parseU32_natChars b.w hw, parseU32_natChars b.h hh]
  · decide

/-- Concrete witness for the display/parse round trip at the box
[10, 20, 30, 40]. -/
theorem display_from_str_roundtrip_witness :
    bb_from_str (bb_display ⟨10, 20, 30, 40⟩) = some ⟨10, 20, 30, 40⟩ ∧
    bb_from_str "[abc]" = none :=
  display_from_str_roundtrip ⟨10, 20, 30, 40⟩ (by decide) (by decide)
    (by decide) (by decide)

/-- C9: `add_bb` with an already-present label pushes to bbs and
selected_bbs but not to labels/colors: after adding two boxes with the
same label to an empty store, bbs has length 2 while labels has length 1,
so the equal-length invariant does not hold. -/
theorem add_bb_duplicate_label_breaks_alignment :
    ((Anno.BboxAnnotations.new []).add_bb ⟨0, 0, 1, 1⟩ "a" (1, 2, 3)).aligned
    ∧
    ¬(((Anno.BboxAnnotations.new []).add_bb ⟨0, 0, 1, 1⟩ "a"
        (1, 2, 3)).add_bb ⟨1, 1, 1, 1⟩ "a" (4, 5, 6)).aligned := by
  constructor
  · show (_ : Anno.BboxAnnotations).aligned
    decide
  · show ¬(_ : Anno.BboxAnnotations).aligned
    decide

/-- C9 (amended): every operation of the store preserves the alignment of
bbs and selected_bbs; construction, remove, remove_selected, set_label,
select/deselect/toggle_selection and clear preserve the full four-array
equal-length invariant; add_bb preserves it exactly when the given label
is not already present (a duplicate label leaves labels/colors shorter). -/
theorem annotations_ops_preserve_alignment (a : Anno.BboxAnnotations)
    (bbs0 : List BB) (i : ℕ) (bb : BB) (lab : String) (clr : Rgb) :
    (Anno.BboxAnnotations.new bbs0).aligned ∧
    (a.aligned → i < a.bbs.length → ((a.remove i).1).aligned) ∧
    (a.aligned → a.remove_selected.aligned) ∧
    (a.aligned → (a.set_label i lab clr).aligned) ∧
    (a.aligned → (a.select i).aligned ∧ (a.deselect i).aligned ∧
      (a.toggle_selection i).aligned) ∧
    (a.clear).aligned ∧
    (a.aligned → lab ∉ a.labels → (a.add_bb bb lab clr).aligned) ∧
    (a.aligned →
      (a.add_bb bb lab clr).bbs.length =
        (a.add_bb bb lab clr).selected_bbs.length) := by
  refine ⟨?_, ?_, ?_, ?_, ?_, ?_, ?_, ?_⟩
  · simp [Anno.BboxAnnotations.new, Anno.BboxAnnotations.aligned]
  · intro hal hlt
    obtain ⟨h1, h2, h3⟩ := hal
    simp only [Anno.BboxAnnotations.remove, Anno.BboxAnnotations.aligned,
      List.length_eraseIdx]
    rw [if_pos hlt, if_pos (by omega), if_pos (by omega), if_pos (by omega)]
    omega
  · intro _
    simp [Anno.BboxAnnotations.remove_selected, Anno.BboxAnnotations.aligned]
  · intro hal
    obtain ⟨h1, h2, h3⟩ := hal
    unfold Anno.BboxAnnotations.set_label
    cases a.labels.enum.find? (fun p => p.2 == lab) with
    | some p =>
      simp only [Anno.BboxAnnotations.aligned, List.length_set]
      exact ⟨h1, h2, h3⟩
    | none =>
      simp only [Anno.BboxAnnotations.aligned, List.length_set]
      exact ⟨h1, h2, h3⟩
  · intro hal
    obtain ⟨h1, h2, h3⟩ := hal
    refine ⟨⟨h1, h2, ?_⟩, ⟨h1, h2, ?_⟩, ⟨h1, h2, ?_⟩⟩ <;>
      simp only [Anno.BboxAnnotations.select, Anno.BboxAnnotations.deselect,
        Anno.BboxAnnotations.toggle_selection, List.length_set] <;>
      exact h3
  · simp [Anno.BboxAnnotations.clear, Anno.BboxAnnotations.aligned]
  · intro hal hmem
    obtain ⟨h1, h2, h3⟩ := hal
    have hany : a.labels.any (fun l0 => l0 == lab) = false := by
      rw [Bool.eq_false_iff]
      intro hanytrue
      rcases List.any_eq_true.mp hanytrue with ⟨x, hx, hxeq⟩
      rw [beq_iff_eq] at hxeq
      exact hmem (hxeq ▸ hx)
    simp only [Anno.BboxAnnotations.add_bb, hany, Bool.false_eq_true,
      if_false, Anno.BboxAnnotations.aligned, List.length_append,
      List.length_singleton]
    omega
  · intro hal
    obtain ⟨h1, h2, h3⟩ := hal
    simp only [Anno.BboxAnnotations.add_bb, List.length_append,
      List.length_singleton]
    omega

/-- Concrete witness for the alignment-preservation theorem: a one-entry
store, index 0, a fresh label. -/
theorem annotations_ops_alignment_witness :
    ((Anno.BboxAnnotations.mk [⟨0, 0, 2, 2⟩] ["a"] [(1, 2, 3)]
        [true]).remove 0).1.aligned ∧
    ((Anno.BboxAnnotations.mk [⟨0, 0, 2, 2⟩] ["a"] [(1, 2, 3)]
        [true]).add_bb ⟨1, 1, 2, 2⟩ "b" (4, 5, 6)).aligned :=
  ⟨(annotations_ops_preserve_alignment
      (Anno.BboxAnnotations.mk [⟨0, 0, 2, 2⟩] ["a"] [(1, 2, 3)] [true])
      [] 0 ⟨1, 1, 2, 2⟩ "b" (4, 5, 6)).2.1 (by decide) (by decide),
   (annotations_ops_preserve_alignment
      (Anno.BboxAnnotations.mk [⟨0, 0, 2, 2⟩] ["a"] [(1, 2, 3)] [true])
      [] 0 ⟨1, 1, 2, 2⟩ "b" (4, 5, 6)).2.2.2.2.2.2.1 (by decide)
      (by decide)⟩

/-- C8: importing an annotations map with a cat_idx ≥ the label table
length fails with a descriptive error and leaves the data (including the
existing in-memory annotations map) completely untouched; a map with all
cat_idx in range replaces the map and succeeds. -/
theorem set_annotations_map_all_or_nothing (d : Bdata.BboxSpecificData)
    (map : List (String × Bdata.BboxAnnotationsT)) :
    ((∃ p ∈ map, ∃ ci ∈ p.2.cat_idxs, d.labels.length ≤ ci) →
      ∃ msg, Bdata.set_annotations_map d map = (Except.error msg, d)) ∧
    ((∀ p ∈ map, ∀ ci ∈ p.2.cat_idxs, ci < d.labels.length) →
      Bdata.set_annotations_map d map =
        (Except.ok (), { d with annotations_map := map })) := by
  constructor
  · rintro ⟨p, hp, ci, hci, hge⟩
    unfold Bdata.set_annotations_map
    cases hfind : (map.flatMap (fun q => q.2.cat_idxs)).find?
        (fun c => decide (d.labels.length ≤ c)) with
    | none =>
      rw [List.find?_eq_none] at hfind
      exact absurd (by simpa using hge)
        (hfind ci (List.mem_flatMap.mpr ⟨p, hp, hci⟩))
    | some c =>
      exact ⟨_, rfl⟩
  · intro hall
    unfold Bdata.set_annotations_map
    have hnone : (map.flatMap (fun q => q.2.cat_idxs)).find?
        (fun c => decide (d.labels.length ≤ c)) = none := by
      rw [List.find?_eq_none]
      intro x hx
      rcases List.mem_flatMap.mp hx with ⟨p, hp, hxp⟩
      simp only [decide_eq_true_eq]
      have := hall p hp x hxp
      omega
    rw [hnone]

/-- Concrete witness for the import guard: one label, a map with cat_idx 1
is rejected with the data unchanged, a map with cat_idx 0 is accepted. -/
theorem set_annotations_map_witness :
    (∃ msg, Bdata.set_annotations_map
      (Bdata.BboxSpecificData.mk ["foreground"] [(255, 255, 255)] [1] 0 [])
      [("f.png", Bdata.BboxAnnotationsT.mk [⟨0, 0, 2, 2⟩] [1])] =
      (Except.error msg,
        Bdata.BboxSpecificData.mk ["foreground"] [(255, 255, 255)] [1] 0
          [])) ∧
    Bdata.set_annotations_map
      (Bdata.BboxSpecificData.mk ["foreground"] [(255, 255, 255)] [1] 0 [])
      [("f.png", Bdata.BboxAnnotationsT.mk [⟨0, 0, 2, 2⟩] [0])] =
      (Except.ok (),
        Bdata.BboxSpecificData.mk ["foreground"] [(255, 255, 255)] [1] 0
          [("f.png", Bdata.BboxAnnotationsT.mk [⟨0, 0, 2, 2⟩] [0])]) :=
  ⟨(set_annotations_map_all_or_nothing
      (Bdata.BboxSpecificData.mk ["foreground"] [(255, 255, 255)] [1] 0 [])
      [("f.png", Bdata.BboxAnnotationsT.mk [⟨0, 0, 2, 2⟩] [1])]).1
      ⟨("f.png", Bdata.BboxAnnotationsT.mk [⟨0, 0, 2, 2⟩] [1]),
        by decide, 1, by decide, by decide⟩,
   (set_annotations_map_all_or_nothing
      (Bdata.BboxSpecificData.mk ["foreground"] [(255, 255, 255)] [1] 0 [])
      [("f.png", Bdata.BboxAnnotationsT.mk [⟨0, 0, 2, 2⟩] [0])]).2
      (by decide)⟩

/-- C10: `set_zoom_box (some bb)` takes effect exactly when bb.w > 1 and
bb.h > 1; a degenerate box leaves both the stored zoom box and the pending
view update unchanged; `set_zoom_box none` always resets; consequently a
World whose zoom box is always Some-with-sides-greater-than-1 keeps that
invariant under set_zoom_box. -/
theorem set_zoom_box_guards_degenerate (world : World) (bb : BB)
    (zb : Option BB) :
    (1 < bb.w → 1 < bb.h →
      world.set_zoom_box (some bb) =
        ⟨some bb, UpdateViewM.from_zoombox (some bb)⟩) ∧
    (bb.w ≤ 1 ∨ bb.h ≤ 1 → world.set_zoom_box (some bb) = world) ∧
    world.set_zoom_box none = ⟨none, UpdateViewM.from_zoombox none⟩ ∧
    ((∀ b, world.zoom_box = some b → 1 < b.w ∧ 1 < b.h) →
      ∀ b, (world.set_zoom_box zb).zoom_box = some b →
        1 < b.w ∧ 1 < b.h) := by
  refine ⟨?_, ?_, rfl, ?_⟩
  · intro hw hh
    simp only [World.set_zoom_box]
    rw [if_pos ⟨hh, hw⟩]
  · intro hle
    simp only [World.set_zoom_box]
    rw [if_neg (by omega : ¬(bb.h > 1 ∧ bb.w > 1))]
  · intro hinv b hb
    match zb with
    | none =>
      simp only [World.set_zoom_box] at hb
      exact absurd hb (by simp)
    | some z =>
      simp only [World.set_zoom_box] at hb
      by_cases hc : z.h > 1 ∧ z.w > 1
      · rw [if_pos hc] at hb
        simp only [Option.some_inj] at hb
        subst hb
        exact ⟨hc.2, hc.1⟩
      · rw [if_neg hc] at hb
        exact hinv b hb

/-- Concrete witness for the zoom-box guard: a 5×7 box is stored, a 1×7 box
is ignored. -/
theorem set_zoom_box_guards_witness :
    World.set_zoom_box ⟨none, UpdateViewM.initial⟩ (some ⟨0, 0, 5, 7⟩) =
      ⟨some ⟨0, 0, 5, 7⟩, UpdateViewM.from_zoombox (some ⟨0, 0, 5, 7⟩)⟩ ∧
    World.set_zoom_box ⟨none, UpdateViewM.initial⟩ (some ⟨0, 0, 1, 7⟩) =
      ⟨none, UpdateViewM.initial⟩ :=
  ⟨(set_zoom_box_guards_degenerate ⟨none, UpdateViewM.initial⟩ ⟨0, 0, 5, 7⟩
      none).1 (by decide) (by decide),
   (set_zoom_box_guards_degenerate ⟨none, UpdateViewM.initial⟩ ⟨0, 0, 1, 7⟩
      none).2.1 (by decide)⟩

end Rv
